import Mathlib

/-!
Verification of the chat-langchain RAG service (src/main.py, src/ingest.py).

The relevant parts of the program are shallowly embedded below: pure Python
functions become Lean functions, the streaming sources-message builder becomes
a recursive function threading the `seen_sources` set explicitly, the dict
lookup that can raise `KeyError` returns `Option`, and the third-party
reconciliation engine (langchain `index`) is modelled from the spec, since its
code is not part of this repository.
-/

/-- A retrieved document as it appears in `transform_stream_for_client`:
Weaviate returns `page_content` plus the metadata attributes
`source`, `page` and `file` (`file` may be absent). -/
structure Document where
  page_content : String
  source : String
  page : Nat
  file : Option String
deriving DecidableEq

/-- One record of `reports_metadata.json` (`data_list` in src/main.py):
keyed by `file`, carrying display attributes read with `.get`
(hence `Option`). -/
structure ReportMeta where
  file : String
  name : Option String
  author : Option String
  date_published : Option String
deriving DecidableEq

/-- One entry of the one-time sources message built at
src/main.py:219-228. -/
structure SourceInfo where
  source : String
  file : String
  name : Option String
  author : Option String
  date_published : Option String
deriving DecidableEq

/-- Python `s.startswith(pre)`: the first `len(pre)` characters of `s`
equal `pre`. -/
def strStartsWith (s pre : String) : Bool :=
  s.toList.take pre.length == pre.toList

/-- `remove_prefix` from src/main.py:144-147: drop `pre` from the front of
`s` when it is there, otherwise return `s` unchanged. -/
def dropLeading (s pre : String) : String :=
  if strStartsWith s pre then s.drop pre.length else s

/-- The dict comprehension `{item["file"]: item for item in data_list}`
(src/main.py:77): a later item with the same `file` key overwrites an
earlier one, so lookup finds the last matching item. -/
def metadataLookup (data_list : List ReportMeta) (k : String) : Option ReportMeta :=
  data_list.reverse.find? (fun r => r.file == k)

/-- Python truthiness of `doc.metadata.get("file")`: the key is present and
its string value is non-empty. -/
def truthyFile (d : Document) : Bool :=
  match d.file with
  | some s => s != ""
  | none => false

/-- The loop body of the sources-message construction
(src/main.py:211-229), with the mutable `seen_sources` set threaded as the
`seen` argument.  The unguarded `metadata_dict[...]` subscript raises
`KeyError` in Python when the prefix-stripped file is not a key of the
table; that failure is `none` here and aborts the whole message. -/
def buildSources (tbl : List ReportMeta) : List Document → List String → Option (List SourceInfo)
  | [], _ => some []
  | d :: ds, seen =>
    if d.source ∈ seen then
      buildSources tbl ds seen
    else
      match d.file with
      | none => buildSources tbl ds seen
      | some f =>
        if f = "" then
          buildSources tbl ds seen
        else
          match metadataLookup tbl (dropLeading f "reports/") with
          | none => none
          | some entry =>
            match buildSources tbl ds (d.source :: seen) with
            | none => none
            | some rest =>
              some ({ source := d.source, file := f, name := entry.name,
                      author := entry.author,
                      date_published := entry.date_published } :: rest)

/-- First-occurrence deduplication of a list of keys, skipping keys already
in `seen`: the reference order for the sources message. -/
def dedupFrom (seen : List String) : List String → List String
  | [] => []
  | x :: xs =>
    if x ∈ seen then dedupFrom seen xs
    else x :: dedupFrom (x :: seen) xs


/-- The f-string `f"<doc id='{i}'>{doc.page_content}</doc>"` of
src/main.py:139 (`\x27` is the apostrophe). -/
def doc_string (i : Nat) (d : Document) : String :=
  "<doc id=\x27" ++ toString i ++ "\x27>" ++ d.page_content ++ "</doc>"

/-- The enumerate-and-append loop of `format_docs` (src/main.py:136-140):
`i` is the current index and `acc` the `formatted_docs` accumulator. -/
def format_docs_list (docs : List Document) (i : Nat) (acc : List String) : List String :=
  match docs with
  | [] => acc
  | d :: ds => format_docs_list ds (i + 1) (acc ++ [doc_string i d])

/-- `format_docs` from src/main.py:136-141: build the tagged strings in
order and join them with newlines. -/
def format_docs (docs : List Document) : String :=
  String.intercalate "\n" (format_docs_list docs 0 [])

/-- A chat message after conversion in `chat_endpoint`
(HumanMessage / AIMessage, src/main.py:258-260). -/
inductive ChatMessage where
  | human (s : String)
  | ai (s : String)
deriving DecidableEq

/-- The pipeline stages composed by `create_retriever_chain`
(src/main.py:113-133). -/
inductive ChainStage where
  | itemgetterQuestion
  | itemgetterMap
  | condensePrompt
  | llm
  | strOutputParser
  | retriever
deriving DecidableEq

/-- The stage sequence of the runnable returned by `create_retriever_chain`
for each value of `use_chat_history`: without history it is
`itemgetter("question") | retriever`; with history the condense-question
chain (input map, rephrase prompt, llm, string parser) runs first. -/
def retrieverChainStages : Bool → List ChainStage
  | false => [ChainStage.itemgetterQuestion, ChainStage.retriever]
  | true => [ChainStage.itemgetterMap, ChainStage.condensePrompt, ChainStage.llm,
             ChainStage.strOutputParser, ChainStage.retriever]

/-- `REPHRASE_TEMPLATE` (src/main.py:65-72) filled with the serialized
chat history and the question. -/
def rephraseFill (chat_history question : String) : String :=
  "Given the following conversation and a follow up question, rephrase the follow up " ++
  "question to be a standalone question.\n\nChat History:\n" ++ chat_history ++
  "\nFollow Up Input: " ++ question ++ "\nStandalone Question:"

/-- Denotation of the runnable built by `create_retriever_chain`
(src/main.py:113-133).  `llm` and `retrieve` stand for the external model
and vector store, `serialize` for the prompt library's rendering of the
message list.  The result pairs the retrieved documents with the number of
language-model calls made before retrieval. -/
def runRetrieverChain (llm : String → String) (retrieve : String → List Document)
    (serialize : List ChatMessage → String) (use_chat_history : Bool)
    (question : String) (chat_history : List ChatMessage) : List Document × Nat :=
  if ¬ use_chat_history then
    (retrieve question, 0)
  else
    let condensed := llm (rephraseFill (serialize chat_history) question)
    (retrieve condensed, 1)

/-- One entry of the request's `history` list (src/main.py:245): a dict
that may carry a `"human"` and/or an `"ai"` value. -/
structure HistEntry where
  human : Option String
  ai : Option String
deriving DecidableEq

/-- The history-conversion loop of `chat_endpoint` (src/main.py:256-260):
an entry's human value, if present, is appended before its ai value, and
entries are processed in order. -/
def convert_chat_history (h : List HistEntry) : List ChatMessage :=
  h.flatMap (fun e =>
    (match e.human with
     | some s => [ChatMessage.human s]
     | none => []) ++
    (match e.ai with
     | some s => [ChatMessage.ai s]
     | none => []))

/-- What `chat_endpoint` derives from the optional request history
(src/main.py:254-276): the converted message list handed to the chain, and
`use_chat_history = bool(converted_chat_history)`. -/
def chat_config (history : Option (List HistEntry)) : Bool × List ChatMessage :=
  let conv := convert_chat_history (history.getD [])
  (!conv.isEmpty, conv)

/-- A page-document produced by the loader in src/ingest.py: `PyPDFLoader`
sets `source` to the originating path and `page` to the page number;
`file` is absent until the metadata rewrite adds it. -/
structure IngestDoc where
  content : String
  source : String
  page : Nat
  file : Option String
deriving DecidableEq

/-- The metadata rewrite of src/ingest.py:106-108: `file` becomes the old
`source`, then `source` becomes the new `file` plus `"_"` plus the decimal
page number. -/
def rewriteMeta (d : IngestDoc) : IngestDoc :=
  { d with file := some d.source, source := d.source ++ "_" ++ toString d.page }

/-- Modelled from the spec: the Chunker (`RecursiveCharacterTextSplitter`,
external library code not in this repository) "splits long segments into
bounded-size overlapping windows" with `chunk_size` 4000 and
`chunk_overlap` 200; content that fits in one window is a single chunk,
longer content is cut into 4000-character windows starting every 3800
characters. -/
def chunkWindows (l : List Char) : List (List Char) :=
  if h : l.length ≤ 4000 then [l]
  else
    have : (l.drop 3800).length < l.length := by
      rw [List.length_drop]
      omega
    l.take 4000 :: chunkWindows (l.drop 3800)
termination_by l.length

/-- Modelled from the spec: `split_documents` applied document-wise — each
window becomes a chunk carrying a copy of the document's metadata. -/
def specSplit (docs : List IngestDoc) : List IngestDoc :=
  docs.flatMap (fun d => (chunkWindows d.content.toList).map
    (fun cs => { d with content := String.mk cs }))

/-- The document set handed to the reconciliation `index` call by
`ingest_docs` (src/ingest.py:93-149), with the splitter as a parameter:
`docs_transformed` is computed at line 102 but the `index` call at line
142-149 receives `docs_from_chmc` — the loaded page-documents after the
in-place metadata rewrite — so the splitter output is discarded. -/
def ingest_docs_indexed (split : List IngestDoc → List IngestDoc)
    (docs_from_chmc : List IngestDoc) : List IngestDoc :=
  let _docs_transformed := split docs_from_chmc
  docs_from_chmc.map rewriteMeta

/-- The `{added, updated, skipped, deleted}` counts returned by the
reconciliation engine (spec section 4.1). -/
structure IndexStats where
  added : Nat
  updated : Nat
  skipped : Nat
  deleted : Nat
deriving DecidableEq

/-- The persisted record store: `sourceId` mapped to the content hash of
the chunk last indexed under it.  The hash is modelled as the content
itself (an injective content hash). -/
abbrev RecordStore := List (String × String)

/-- Record lookup by `sourceId`. -/
def rsLookup (rs : RecordStore) (k : String) : Option String :=
  (rs.find? (fun p => p.1 == k)).map (fun p => p.2)

/-- Record upsert: bind `k` to `v`, dropping any earlier binding of `k`. -/
def rsUpsert (rs : RecordStore) (k v : String) : RecordStore :=
  (k, v) :: rs.filter (fun p => ¬ p.1 = k)

/-- Running state of one reconciliation pass: counts so far, the record
store, and the `sourceId`s touched so far. -/
structure IndexState where
  stats : IndexStats
  records : RecordStore
  touched : List String
deriving DecidableEq

/-- Modelled from the spec (section 4.1; the langchain `index` function is
external library code not in this repository): for one chunk, if no prior
record exists for its `sourceId`, insert; if a prior record has a
different hash, update (delete-then-insert); if the hash is unchanged,
skip.  The chunk's `sourceId` is its `source` metadata
(`source_id_key="source"`, src/ingest.py:148). -/
def indexChunk (st : IndexState) (d : IngestDoc) : IndexState :=
  let st1 := { st with touched := d.source :: st.touched }
  match rsLookup st1.records d.source with
  | none =>
    { st1 with stats := { st1.stats with added := st1.stats.added + 1 },
               records := rsUpsert st1.records d.source d.content }
  | some h =>
    if h = d.content then
      { st1 with stats := { st1.stats with skipped := st1.stats.skipped + 1 } }
    else
      { st1 with stats := { st1.stats with updated := st1.stats.updated + 1 },
                 records := rsUpsert st1.records d.source d.content }

/-- Modelled from the spec: `full`-mode cleanup deletes every persisted
record whose `sourceId` was not touched in this pass. -/
def indexCleanupFull (st : IndexState) : IndexState :=
  let stale := st.records.filter (fun p => ¬ p.1 ∈ st.touched)
  { st with stats := { st.stats with deleted := st.stats.deleted + stale.length },
            records := st.records.filter (fun p => p.1 ∈ st.touched) }

/-- Modelled from the spec: one reconciliation pass over the current chunk
set against the persisted record store, in `full` or `incremental` cleanup
mode; returns the counts and the new record store.  `ingest_docs` calls it
with `cleanup="full"` (src/ingest.py:147). -/
def indexPass (chunks : List IngestDoc) (records : RecordStore) (full : Bool) :
    IndexStats × RecordStore :=
  let st1 := chunks.foldl indexChunk ⟨⟨0, 0, 0, 0⟩, records, []⟩
  let st2 := if full then indexCleanupFull st1 else st1
  (st2.stats, st2.records)

/-- The observable outcome of `aget_trace_url` (src/main.py:330-340): how
many `read_run` attempts were made, the sleep durations after the failed
attempts, and the URL returned by the share-link stage. -/
structure TraceOutcome where
  attempts : Nat
  sleeps : List Nat
  url : String
deriving DecidableEq

/-- The `for i in range(5)` retry loop of src/main.py:331-336 over the
remaining attempt indices: a successful read breaks out; a transient
failure sleeps `1 ** i` seconds and continues.  Returns the number of
attempts made and the list of sleep durations. -/
def traceReadAttempts (readOk : Nat → Bool) : List Nat → Nat × List Nat
  | [] => (0, [])
  | i :: rest =>
    if readOk i then (1, [])
    else ((traceReadAttempts readOk rest).1 + 1,
          1 ^ i :: (traceReadAttempts readOk rest).2)

/-- `aget_trace_url` (src/main.py:330-340): run the bounded retry loop,
then proceed unconditionally to the share-link stage — the existing shared
link when the run is shared, a newly created one otherwise.  `readOk i`
tells whether the read attempt with loop index `i` succeeds. -/
def aget_trace_url (readOk : Nat → Bool) (isShared : Bool)
    (sharedLink newLink : String) : TraceOutcome :=
  { attempts := (traceReadAttempts readOk (List.range 5)).1,
    sleeps := (traceReadAttempts readOk (List.range 5)).2,
    url := if isShared then sharedLink else newLink }

/-- The structured `{result, code}` body returned by the feedback and
trace endpoints. -/
structure EndpointResponse where
  result : String
  code : Nat
deriving DecidableEq

/-- `send_feedback` (src/main.py:289-301), paired with the number of calls
made to the external feedback collaborator. -/
def send_feedback (run_id : Option String) : EndpointResponse × Nat :=
  match run_id with
  | none => ({ result := "No LangSmith run ID provided", code := 400 }, 0)
  | some _ => ({ result := "posted feedback successfully", code := 200 }, 1)

/-- `update_feedback` (src/main.py:304-318), paired with the number of
calls made to the external feedback collaborator. -/
def update_feedback (feedback_id : Option String) : EndpointResponse × Nat :=
  match feedback_id with
  | none => ({ result := "No feedback ID provided", code := 400 }, 0)
  | some _ => ({ result := "patched feedback successfully", code := 200 }, 1)

/-- A `/get_trace` response: the structured error body or a share URL. -/
inductive TraceResponse where
  | err (r : EndpointResponse)
  | url (s : String)
deriving DecidableEq

/-- `get_trace` (src/main.py:343-352), paired with the number of calls
made to the external trace collaborator (read attempts plus the two
share-stage calls). -/
def get_trace_endpoint (run_id : Option String) (readOk : Nat → Bool)
    (isShared : Bool) (sharedLink newLink : String) : TraceResponse × Nat :=
  match run_id with
  | none => (TraceResponse.err { result := "No LangSmith run ID provided", code := 400 }, 0)
  | some _ =>
    let o := aget_trace_url readOk isShared sharedLink newLink
    (TraceResponse.url o.url, o.attempts + 2)

/-! ## Supporting lemmas -/

lemma format_docs_list_eq (docs : List Document) :
    ∀ i acc, format_docs_list docs i acc =
      acc ++ (List.enumFrom i docs).map (fun p => doc_string p.1 p.2) := by
  induction docs with
  | nil => intro i acc; simp [format_docs_list, List.enumFrom]
  | cons d ds ih => intro i acc; simp [format_docs_list, List.enumFrom, ih]

lemma traceReadAttempts_le (readOk : Nat → Bool) :
    ∀ l : List Nat, (traceReadAttempts readOk l).1 ≤ l.length := by
  intro l
  induction l with
  | nil => simp [traceReadAttempts]
  | cons i rest ih =>
    by_cases h : readOk i
    · simp [traceReadAttempts, h]
    · simp only [traceReadAttempts, h, Bool.false_eq_true, if_false, List.length_cons]
      omega

lemma traceReadAttempts_sleeps (readOk : Nat → Bool) :
    ∀ l : List Nat, ∀ x ∈ (traceReadAttempts readOk l).2, x = 1 := by
  intro l
  induction l with
  | nil => simp [traceReadAttempts]
  | cons i rest ih =>
    by_cases h : readOk i
    · simp [traceReadAttempts, h]
    · intro x hx
      simp only [traceReadAttempts, h, Bool.false_eq_true, if_false,
        List.mem_cons] at hx
      rcases hx with hx | hx
      · simpa using hx
      · exact ih x hx

/-! ## Claim theorems -/

/-- C2: with an empty chat history (`use_chat_history = false`) the
query-rewriting step is the identity — the question string reaches the
retriever unmodified, zero language-model calls are made before retrieval,
and the chain built by `create_retriever_chain` contains no LLM stage. -/
theorem empty_history_rewrite_is_identity (llm : String → String)
    (retrieve : String → List Document) (serialize : List ChatMessage → String)
    (q : String) (hist : List ChatMessage) :
    runRetrieverChain llm retrieve serialize false q hist = (retrieve q, 0) ∧
    ChainStage.llm ∉ retrieverChainStages false := by
  exact ⟨by simp [runRetrieverChain], by decide⟩

/-- C6: the trace-URL fetch makes at most 5 read attempts, every sleep
after a failed attempt lasts `1 ** i = 1` second, and the function
proceeds unconditionally to the share-link stage (existing link when
shared, otherwise a new one), surfacing no exception. -/
theorem trace_retry_bound (readOk : Nat → Bool) (isShared : Bool) (sl nl : String) :
    (aget_trace_url readOk isShared sl nl).attempts ≤ 5 ∧
    (∀ x ∈ (aget_trace_url readOk isShared sl nl).sleeps, x = 1) ∧
    (aget_trace_url readOk isShared sl nl).url = (if isShared then sl else nl) := by
  refine ⟨?_, ?_, rfl⟩
  · have h := traceReadAttempts_le readOk (List.range 5)
    simpa [aget_trace_url] using h
  · intro x hx
    exact traceReadAttempts_sleeps readOk (List.range 5) x hx

/-- Witness for C6 at a concrete environment where every read attempt
fails transiently. -/
theorem trace_retry_bound_witness :
    (aget_trace_url (fun _ => false) true "a" "b").attempts ≤ 5 ∧
    (∀ x ∈ (aget_trace_url (fun _ => false) true "a" "b").sleeps, x = 1) ∧
    (aget_trace_url (fun _ => false) true "a" "b").url = (if true then "a" else "b") :=
  trace_retry_bound (fun _ => false) true "a" "b"

/-- C7: each endpoint with its required field missing returns the
structured `{result, code: 400}` body and makes zero calls to the external
feedback/trace collaborator. -/
theorem missing_required_field_is_400 (readOk : Nat → Bool) (isShared : Bool)
    (sl nl : String) :
    send_feedback none = ({ result := "No LangSmith run ID provided", code := 400 }, 0) ∧
    update_feedback none = ({ result := "No feedback ID provided", code := 400 }, 0) ∧
    get_trace_endpoint none readOk isShared sl nl =
      (TraceResponse.err { result := "No LangSmith run ID provided", code := 400 }, 0) :=
  ⟨rfl, rfl, rfl⟩

/-- C8: after the ingestion metadata rewrite, each document's `file`
attribute is the originating path (the loader's `source`) and its
`source` identifier is that path, `"_"`, and the decimal page number —
a deterministic function of path and page. -/
theorem sourceId_from_path_and_page (split : List IngestDoc → List IngestDoc)
    (loaded : List IngestDoc) :
    (ingest_docs_indexed split loaded).map (fun d => (d.file, d.source)) =
      loaded.map (fun d => (some d.source, d.source ++ "_" ++ toString d.page)) := by
  simp only [ingest_docs_indexed, List.map_map]
  rfl

/-- C9: the context block is the newline-joined concatenation of each
document's content wrapped in a 0-based indexed tag, and the empty
retrieval list formats (without failing) to the empty string. -/
theorem context_block_formatting (docs : List Document) :
    format_docs docs =
      String.intercalate "\n" ((List.enum docs).map (fun p => doc_string p.1 p.2)) ∧
    format_docs [] = "" := by
  constructor
  · rw [format_docs, format_docs_list_eq]
    simp [List.enum]
  · rfl

/-- C10: history conversion preserves entry order (it maps concatenation
to concatenation); an entry with both values yields a human message
immediately followed by an ai message; an entry with neither key
contributes nothing; the rewriting path is taken iff the converted list is
non-empty; and a history of only empty entries behaves exactly like an
absent history. -/
theorem history_conversion_order (a b : String) :
    (∀ h1 h2 : List HistEntry,
        convert_chat_history (h1 ++ h2) =
          convert_chat_history h1 ++ convert_chat_history h2) ∧
    (∀ pre post : List HistEntry,
        convert_chat_history (pre ++ { human := some a, ai := some b } :: post) =
          convert_chat_history pre ++
            ChatMessage.human a :: ChatMessage.ai b :: convert_chat_history post) ∧
    (∀ pre post : List HistEntry,
        convert_chat_history (pre ++ { human := none, ai := none } :: post) =
          convert_chat_history (pre ++ post)) ∧
    (∀ history : Option (List HistEntry),
        (chat_config history).1 = true ↔ (chat_config history).2 ≠ []) ∧
    chat_config (some [{ human := none, ai := none }]) = chat_config none := by
  refine ⟨?_, ?_, ?_, ?_, by decide⟩
  · intro h1 h2
    simp [convert_chat_history]
  · intro pre post
    simp [convert_chat_history]
  · intro pre post
    simp [convert_chat_history]
  · intro history
    simp [chat_config]

lemma dedupFrom_nodup_and_fresh :
    ∀ (xs : List String) (seen : List String),
      (dedupFrom seen xs).Nodup ∧ ∀ x ∈ dedupFrom seen xs, x ∉ seen := by
  intro xs
  induction xs with
  | nil => intro seen; simp [dedupFrom]
  | cons x xs ih =>
    intro seen
    by_cases hx : x ∈ seen
    · simpa [dedupFrom, hx] using ih seen
    · have ih1 := ih (x :: seen)
      refine ⟨?_, ?_⟩
      · simp only [dedupFrom, hx, if_false]
        refine List.nodup_cons.mpr ⟨?_, ih1.1⟩
        intro hmem
        have := ih1.2 x hmem
        simp at this
      · intro y hy
        simp only [dedupFrom, hx, if_false, List.mem_cons] at hy
        rcases hy with rfl | hy
        · exact hx
        · have := ih1.2 y hy
          intro hys
          exact this (List.mem_cons_of_mem _ hys)

lemma buildSources_map_source (tbl : List ReportMeta) :
    ∀ (docs : List Document) (seen : List String) (l : List SourceInfo),
      buildSources tbl docs seen = some l →
      l.map SourceInfo.source =
        dedupFrom seen ((docs.filter truthyFile).map Document.source) := by
  intro docs
  induction docs with
  | nil =>
    intro seen l h
    simp only [buildSources, Option.some.injEq] at h
    subst h
    simp [dedupFrom]
  | cons d ds ih =>
    intro seen l h
    by_cases hm : d.source ∈ seen
    · rw [buildSources, if_pos hm] at h
      have hrec := ih seen l h
      cases hf : truthyFile d
      · simp [List.filter_cons, hf, hrec]
      · simp [List.filter_cons, hf, dedupFrom, hm, hrec]
    · rw [buildSources, if_neg hm] at h
      rcases hd : d.file with _ | f
      · rw [hd] at h
        have hf : truthyFile d = false := by simp [truthyFile, hd]
        simpa [List.filter_cons, hf] using ih seen l h
      · rw [hd] at h
        have h2 : (if f = "" then buildSources tbl ds seen
            else
              match metadataLookup tbl (dropLeading f "reports/") with
              | none => none
              | some entry =>
                match buildSources tbl ds (d.source :: seen) with
                | none => none
                | some rest =>
                  some ({ source := d.source, file := f, name := entry.name,
                          author := entry.author,
                          date_published := entry.date_published } :: rest)) =
            some l := h
        by_cases he : f = ""
        · rw [if_pos he] at h2
          have hf : truthyFile d = false := by simp [truthyFile, hd, he]
          simpa [List.filter_cons, hf] using ih seen l h2
        · rw [if_neg he] at h2
          have hf : truthyFile d = true := by simp [truthyFile, hd, he]
          cases hml : metadataLookup tbl (dropLeading f "reports/")
          · rw [hml] at h2
            exact Option.noConfusion h2
          · rw [hml] at h2
            cases hbs : buildSources tbl ds (d.source :: seen)
            · rw [hbs] at h2
              exact Option.noConfusion h2
            · rw [hbs] at h2
              have hl := Option.some.inj h2
              subst hl
              have hrec := ih (d.source :: seen) _ hbs
              simp [List.filter_cons, hf, dedupFrom, hm, hrec]

/-- C1: whenever the sources-message construction succeeds, its entries
are keyed by `source` exactly as the first-occurrence deduplication of the
retrieved documents that have a present and truthy `file` attribute — one
entry per distinct `source`, in order of first occurrence. -/
theorem sources_message_dedup_first_occurrence (tbl : List ReportMeta)
    (docs : List Document) (l : List SourceInfo)
    (h : buildSources tbl docs [] = some l) :
    l.map SourceInfo.source =
      dedupFrom [] ((docs.filter truthyFile).map Document.source) ∧
    (l.map SourceInfo.source).Nodup := by
  have hmap := buildSources_map_source tbl docs [] l h
  refine ⟨hmap, ?_⟩
  rw [hmap]
  exact (dedupFrom_nodup_and_fresh _ []).1

/-- Witness for C1: two retrieved chunks sharing a `source` plus a chunk
with a falsy `file` produce exactly one entry. -/
theorem sources_message_dedup_witness :
    buildSources [⟨"a.pdf", some "n", none, none⟩]
        [⟨"x", "s1", 0, some "reports/a.pdf"⟩, ⟨"z", "s2", 1, none⟩,
         ⟨"y", "s1", 2, some "reports/a.pdf"⟩] [] =
      some [⟨"s1", "reports/a.pdf", some "n", none, none⟩] ∧
    (([⟨"s1", "reports/a.pdf", some "n", none, none⟩] : List SourceInfo).map
        SourceInfo.source =
      dedupFrom [] ((([⟨"x", "s1", 0, some "reports/a.pdf"⟩, ⟨"z", "s2", 1, none⟩,
         ⟨"y", "s1", 2, some "reports/a.pdf"⟩] : List Document).filter
           truthyFile).map Document.source) ∧
    (([⟨"s1", "reports/a.pdf", some "n", none, none⟩] : List SourceInfo).map
        SourceInfo.source).Nodup) :=
  ⟨by decide,
   sources_message_dedup_first_occurrence [⟨"a.pdf", some "n", none, none⟩]
     [⟨"x", "s1", 0, some "reports/a.pdf"⟩, ⟨"z", "s2", 1, none⟩,
      ⟨"y", "s1", 2, some "reports/a.pdf"⟩]
     [⟨"s1", "reports/a.pdf", some "n", none, none⟩] (by decide)⟩

/-- C3: evaluating the sources-message construction of
`transform_stream_for_client` at a retrieved document whose
prefix-stripped `file` is not a key of the side-loaded metadata table: the
unguarded `metadata_dict[...]` subscript fails (Python raises `KeyError`,
modelled as `none`) instead of skipping the citation entry as the claim
requires. -/
theorem missing_metadata_lookup_fails :
    buildSources []
        [{ page_content := "c", source := "s1", page := 0,
           file := some "reports/missing.pdf" }] [] = none := by
  decide

/-- Counterexample to C4: a single 4100-character page-document.  The
Chunker's output has two windows, but the document set handed to the
`index` call (`docs_from_chmc`, src/ingest.py:144) still has one document,
so it is not the split chunks that are indexed. -/
theorem chunker_output_not_indexed :
    (ingest_docs_indexed specSplit
        [{ content := String.mk (List.replicate 4100 'x'), source := "reports/a.pdf",
           page := 0, file := none }]).length ≠
      (specSplit
        [{ content := String.mk (List.replicate 4100 'x'), source := "reports/a.pdf",
           page := 0, file := none }]).length := by
  have h0 : (String.mk (List.replicate 4100 'x')).toList = List.replicate 4100 'x' := rfl
  have h2 : chunkWindows ((List.replicate 4100 'x' : List Char).drop 3800) =
      [(List.replicate 4100 'x' : List Char).drop 3800] := by
    rw [chunkWindows, dif_pos (by simp only [List.length_drop, List.length_replicate]; omega)]
  have h1 : chunkWindows (List.replicate 4100 'x' : List Char) =
      (List.replicate 4100 'x' : List Char).take 4000 ::
        chunkWindows ((List.replicate 4100 'x' : List Char).drop 3800) := by
    rw [chunkWindows, dif_neg (by simp only [List.length_replicate]; omega)]
  simp only [ingest_docs_indexed, specSplit, List.flatMap_cons, List.flatMap_nil,
    List.append_nil, h0, h1, h2, List.length_map, List.length_cons, List.length_nil,
    List.length_singleton]
  omega

/-- C4 amended: the document set handed to the reconciliation `index` call
is the loaded page-documents with rewritten metadata — one document per
loaded page, contents unchanged — independent of the text splitter, whose
output is computed but discarded. -/
theorem indexed_docs_are_loaded_pages (split split2 : List IngestDoc → List IngestDoc)
    (loaded : List IngestDoc) :
    ingest_docs_indexed split loaded = loaded.map rewriteMeta ∧
    ingest_docs_indexed split loaded = ingest_docs_indexed split2 loaded ∧
    (ingest_docs_indexed split loaded).map IngestDoc.content =
      loaded.map IngestDoc.content ∧
    (ingest_docs_indexed split loaded).length = loaded.length := by
  refine ⟨rfl, rfl, ?_, by simp [ingest_docs_indexed]⟩
  simp only [ingest_docs_indexed, List.map_map]
  rfl

lemma find?_filter_keep {α : Type} (l : List α) (p q : α → Bool)
    (h : ∀ x, q x = true → p x = true) :
    (l.filter p).find? q = l.find? q := by
  induction l with
  | nil => rfl
  | cons a l ih =>
    by_cases hp : p a
    · rw [List.filter_cons_of_pos hp]
      by_cases hq : q a
      · rw [List.find?_cons_of_pos _ hq, List.find?_cons_of_pos _ hq]
      · rw [List.find?_cons_of_neg _ hq, List.find?_cons_of_neg _ hq, ih]
    · rw [List.filter_cons_of_neg hp]
      have hq : ¬ q a = true := fun hqq => hp (h a hqq)
      rw [List.find?_cons_of_neg _ hq, ih]

lemma rsLookup_upsert_self (rs : RecordStore) (k v : String) :
    rsLookup (rsUpsert rs k v) k = some v := by
  unfold rsLookup rsUpsert
  rw [List.find?_cons_of_pos _ (by simp)]
  rfl

lemma rsLookup_upsert_ne (rs : RecordStore) (k v k2 : String) (h : k2 ≠ k) :
    rsLookup (rsUpsert rs k v) k2 = rsLookup rs k2 := by
  unfold rsLookup rsUpsert
  rw [List.find?_cons_of_neg _ (by simpa using fun hh => h hh.symm)]
  rw [find?_filter_keep]
  intro x hx
  simp only [beq_iff_eq] at hx
  simp only [hx, decide_eq_true_eq]
  exact h

lemma indexChunk_touched (st : IndexState) (d : IngestDoc) :
    (indexChunk st d).touched = d.source :: st.touched := by
  simp only [indexChunk]
  split
  · rfl
  · split <;> rfl

lemma indexChunk_lookup_self (st : IndexState) (d : IngestDoc) :
    rsLookup (indexChunk st d).records d.source = some d.content := by
  simp only [indexChunk]
  split
  · exact rsLookup_upsert_self _ _ _
  · rename_i h hl
    split
    · rename_i he
      simpa [he] using hl
    · exact rsLookup_upsert_self _ _ _

lemma indexChunk_lookup_other (st : IndexState) (d : IngestDoc) (k : String)
    (hk : k ≠ d.source) :
    rsLookup (indexChunk st d).records k = rsLookup st.records k := by
  simp only [indexChunk]
  split
  · exact rsLookup_upsert_ne _ _ _ _ hk
  · split
    · rfl
    · exact rsLookup_upsert_ne _ _ _ _ hk

lemma foldl_indexChunk_touched (cs : List IngestDoc) : ∀ st : IndexState,
    (cs.foldl indexChunk st).touched = (cs.map IngestDoc.source).reverse ++ st.touched := by
  induction cs with
  | nil => intro st; simp
  | cons d cs ih =>
    intro st
    simp only [List.foldl_cons, List.map_cons, List.reverse_cons]
    rw [ih, indexChunk_touched]
    simp

lemma foldl_indexChunk_preserve (cs : List IngestDoc) : ∀ (st : IndexState) (k v : String),
    rsLookup st.records k = some v → (∀ d ∈ cs, d.source = k → d.content = v) →
    rsLookup ((cs.foldl indexChunk st).records) k = some v := by
  induction cs with
  | nil => intro st k v h _; simpa using h
  | cons d cs ih =>
    intro st k v h hall
    simp only [List.foldl_cons]
    apply ih
    · by_cases hk : k = d.source
      · rw [hk, indexChunk_lookup_self]
        rw [hall d (by simp) hk.symm]
      · rw [indexChunk_lookup_other st d k hk]
        exact h
    · intro e he hek
      exact hall e (List.mem_cons_of_mem _ he) hek

lemma foldl_indexChunk_established (cs : List IngestDoc) : ∀ st : IndexState,
    (∀ c1 ∈ cs, ∀ c2 ∈ cs, c1.source = c2.source → c1.content = c2.content) →
    ∀ c ∈ cs, rsLookup ((cs.foldl indexChunk st).records) c.source = some c.content := by
  induction cs with
  | nil => intro st _ c hc; cases hc
  | cons d cs ih =>
    intro st hcons c hc
    simp only [List.foldl_cons]
    rcases List.mem_cons.mp hc with rfl | hc2
    · apply foldl_indexChunk_preserve
      · exact indexChunk_lookup_self st c
      · intro e he hek
        exact hcons e (List.mem_cons_of_mem _ he) c (by simp) hek
    · apply ih _ _ c hc2
      intro c1 h1 c2 h2
      exact hcons c1 (List.mem_cons_of_mem _ h1) c2 (List.mem_cons_of_mem _ h2)

lemma foldl_indexChunk_skip_pass (cs : List IngestDoc) : ∀ st : IndexState,
    (∀ c ∈ cs, rsLookup st.records c.source = some c.content) →
    (cs.foldl indexChunk st).stats =
      { st.stats with skipped := st.stats.skipped + cs.length } ∧
    (cs.foldl indexChunk st).records = st.records := by
  induction cs with
  | nil =>
    intro st _
    refine ⟨?_, rfl⟩
    simp
  | cons d cs ih =>
    intro st h
    have hd : rsLookup st.records d.source = some d.content := h d (by simp)
    have hstep : indexChunk st d =
        { stats := { st.stats with skipped := st.stats.skipped + 1 },
          records := st.records, touched := d.source :: st.touched } := by
      simp only [indexChunk]
      rw [hd]
      simp
    rw [List.foldl_cons, hstep]
    obtain ⟨h1, h2⟩ := ih
      { stats := { st.stats with skipped := st.stats.skipped + 1 },
        records := st.records, touched := d.source :: st.touched }
      (fun c hc => h c (List.mem_cons_of_mem _ hc))
    refine ⟨?_, h2⟩
    rw [h1]
    simp only [List.length_cons]
    congr 1
    omega

lemma indexCleanupFull_stats (st : IndexState) :
    (indexCleanupFull st).stats =
      { st.stats with deleted :=
          st.stats.deleted + (st.records.filter (fun p => ¬ p.1 ∈ st.touched)).length } :=
  rfl

lemma indexCleanupFull_records (st : IndexState) :
    (indexCleanupFull st).records = st.records.filter (fun p => p.1 ∈ st.touched) :=
  rfl

lemma indexPass_full_eq (chunks : List IngestDoc) (records : RecordStore) :
    indexPass chunks records true =
      ((indexCleanupFull (chunks.foldl indexChunk ⟨⟨0, 0, 0, 0⟩, records, []⟩)).stats,
       (indexCleanupFull (chunks.foldl indexChunk ⟨⟨0, 0, 0, 0⟩, records, []⟩)).records) :=
  rfl

lemma indexCleanupFull_noop (st : IndexState)
    (hmem : ∀ p ∈ st.records, p.1 ∈ st.touched) :
    (indexCleanupFull st).stats = st.stats ∧ (indexCleanupFull st).records = st.records := by
  have hstale : st.records.filter (fun p => ¬ p.1 ∈ st.touched) = [] := by
    rw [List.filter_eq_nil_iff]
    intro p hp
    simp only [decide_eq_true_eq, not_not]
    exact hmem p hp
  have hkeep : st.records.filter (fun p => p.1 ∈ st.touched) = st.records := by
    rw [List.filter_eq_self]
    intro p hp
    simp only [decide_eq_true_eq]
    exact hmem p hp
  refine ⟨?_, ?_⟩
  · rw [indexCleanupFull_stats, hstale]
    simp
  · rw [indexCleanupFull_records, hkeep]

lemma indexPass_first (chunks : List IngestDoc) (r0 : RecordStore)
    (hcons : ∀ c1 ∈ chunks, ∀ c2 ∈ chunks, c1.source = c2.source → c1.content = c2.content) :
    (∀ c ∈ chunks, rsLookup (indexPass chunks r0 true).2 c.source = some c.content) ∧
    (∀ p ∈ (indexPass chunks r0 true).2, p.1 ∈ chunks.map IngestDoc.source) := by
  rw [indexPass_full_eq, indexCleanupFull_records]
  constructor
  · intro c hc
    unfold rsLookup
    rw [find?_filter_keep]
    · exact foldl_indexChunk_established chunks _ hcons c hc
    · intro x hx
      simp only [beq_iff_eq] at hx
      simp only [decide_eq_true_eq, hx]
      rw [foldl_indexChunk_touched]
      simp only [List.append_nil, List.mem_reverse]
      exact List.mem_map_of_mem _ hc
  · intro p hp
    have h2 := (List.mem_filter.mp hp).2
    simp only [decide_eq_true_eq] at h2
    rw [foldl_indexChunk_touched] at h2
    simpa using h2

lemma indexPass_second (chunks : List IngestDoc) (r1 : RecordStore)
    (hlk : ∀ c ∈ chunks, rsLookup r1 c.source = some c.content)
    (hmem : ∀ p ∈ r1, p.1 ∈ chunks.map IngestDoc.source) :
    indexPass chunks r1 true = (⟨0, 0, chunks.length, 0⟩, r1) := by
  obtain ⟨hstats, hrec⟩ := foldl_indexChunk_skip_pass chunks ⟨⟨0, 0, 0, 0⟩, r1, []⟩ hlk
  have hm2 : ∀ p ∈ (chunks.foldl indexChunk ⟨⟨0, 0, 0, 0⟩, r1, []⟩).records,
      p.1 ∈ (chunks.foldl indexChunk ⟨⟨0, 0, 0, 0⟩, r1, []⟩).touched := by
    intro p hp
    rw [hrec] at hp
    rw [foldl_indexChunk_touched]
    simp only [List.append_nil, List.mem_reverse]
    exact hmem p hp
  obtain ⟨hcs, hcr⟩ := indexCleanupFull_noop _ hm2
  rw [indexPass_full_eq, hcs, hcr, hstats, hrec]
  simp

/-- C5 (spec-modelled reconciliation): running the Indexer a second time on
the identical chunk set — each `sourceId` carrying one content — performs
no insert, update or delete: the second run reports
`{added: 0, updated: 0, deleted: 0}` with `skipped` equal to the total
chunk count, and leaves the record store unchanged. -/
theorem reconciliation_idempotent (chunks : List IngestDoc) (r0 : RecordStore)
    (hcons : ∀ c1 ∈ chunks, ∀ c2 ∈ chunks, c1.source = c2.source → c1.content = c2.content) :
    (indexPass chunks (indexPass chunks r0 true).2 true).1 =
      { added := 0, updated := 0, skipped := chunks.length, deleted := 0 } ∧
    (indexPass chunks (indexPass chunks r0 true).2 true).2 =
      (indexPass chunks r0 true).2 := by
  obtain ⟨hlk, hmem⟩ := indexPass_first chunks r0 hcons
  rw [indexPass_second chunks _ hlk hmem]
  exact ⟨rfl, rfl⟩

/-- Witness for C5: two chunks with distinct sourceIds, reconciled twice
against a store holding one stale record. -/
theorem reconciliation_idempotent_witness :
    (∀ c1 ∈ ([⟨"x", "s", 0, none⟩, ⟨"y", "t", 1, none⟩] : List IngestDoc),
       ∀ c2 ∈ ([⟨"x", "s", 0, none⟩, ⟨"y", "t", 1, none⟩] : List IngestDoc),
       c1.source = c2.source → c1.content = c2.content) ∧
    ((indexPass [⟨"x", "s", 0, none⟩, ⟨"y", "t", 1, none⟩]
        (indexPass [⟨"x", "s", 0, none⟩, ⟨"y", "t", 1, none⟩] [("old", "z")] true).2
        true).1 =
      { added := 0, updated := 0,
        skipped := ([⟨"x", "s", 0, none⟩, ⟨"y", "t", 1, none⟩] : List IngestDoc).length,
        deleted := 0 } ∧
     (indexPass [⟨"x", "s", 0, none⟩, ⟨"y", "t", 1, none⟩]
        (indexPass [⟨"x", "s", 0, none⟩, ⟨"y", "t", 1, none⟩] [("old", "z")] true).2
        true).2 =
      (indexPass [⟨"x", "s", 0, none⟩, ⟨"y", "t", 1, none⟩] [("old", "z")] true).2) :=
  ⟨by decide, reconciliation_idempotent _ _ (by decide)⟩

